import Mathlib

/-!
Verification development for the invoice-extractor repository.

The repository has two source files:
* `src/app/page.tsx` — the client page: batch submission loop (`handleSubmit`),
  the editable invoice ledger (`updateInvoice`, `updateLineItem`, `addLineItem`,
  `deleteLineItem`, and the inline tax-amount edit handler), and the CSV
  exporter (`exportToCSV`).
* `src/unnamed/part_000` — the `/api/extract` route: brace matching over the
  model reply, `JSON.parse`, and the `sanitize` pass.

JavaScript numbers are modelled as exact rationals (`ℚ`); `null`/`undefined`
fields are modelled as `Option`/`JVal.null`/`JVal.undefined`.  The JS idiom
`x || fallback` on a possibly-absent number or string coincides with
`Option.getD` here because every fallback used by the source (`0`, `""`)
is itself the falsy value of its type.
-/

namespace InvoiceExtractor

/-- A dynamic JSON-ish value as produced by `JSON.parse` and manipulated by
the route handler.  `undefined` is the JavaScript value of that name, read from
a missing object property (never produced by `JSON.parse` itself). -/
inductive JVal where
  | null
  | undefined
  | bool (b : Bool)
  | num (x : ℚ)
  | str (s : String)
  | arr (elems : List JVal)
  | obj (fields : List (String × JVal))

/-- One line item of the typed invoice record held by the client ledger
(`page.tsx`).  Fields the extraction model may omit are `Option`-valued. -/
structure LineItem where
  description : Option String
  quantity : Option ℚ
  unit_price : Option ℚ
  line_total : Option ℚ
deriving DecidableEq, Repr, Inhabited

/-- The typed invoice record held by the client ledger (`page.tsx`).
`line_items` is `none` when the extraction payload lacked the key. -/
structure Invoice where
  vendor_name : Option String := none
  vendor_address : Option String := none
  vendor_email : Option String := none
  vendor_phone : Option String := none
  invoice_number : Option String := none
  invoice_date : Option String := none
  due_date : Option String := none
  purchase_order_number : Option String := none
  subtotal : Option ℚ := none
  tax_amount : Option ℚ := none
  total_amount : Option ℚ := none
  line_items : Option (List LineItem) := none
deriving DecidableEq, Repr

/-- `page.tsx` lines 265, 285-288, 302-305:
`line_items.reduce((sum, item) => sum + (item.line_total || 0), 0)`. -/
def sumLineTotals (items : List LineItem) : ℚ :=
  items.foldl (fun sum item => sum + item.line_total.getD 0) 0

/-- The field/value pairs with which the editing UI calls `updateLineItem`
(`page.tsx` lines 680-748): `description` receives the raw input string, the
three numeric fields receive `parseFloat(e.target.value) || 0`. -/
inductive LIField where
  | description (s : String)
  | quantity (x : ℚ)
  | unit_price (x : ℚ)
  | line_total (x : ℚ)

/-- `page.tsx` lines 250-253: `{...item, [field]: value}`. -/
def applyLIField (item : LineItem) : LIField → LineItem
  | .description s => { item with description := some s }
  | .quantity x => { item with quantity := some x }
  | .unit_price x => { item with unit_price := some x }
  | .line_total x => { item with line_total := some x }

/-- The recompute block the source repeats after every line-item mutation
(`page.tsx` lines 262-266, 279-290, 297-307): store the new item array, set
`subtotal` to the sum of the line totals and `total_amount` to
`subtotal + (tax_amount || 0)`. -/
def recomputedInvoice (inv : Invoice) (items' : List LineItem) : Invoice :=
  { inv with line_items := some items',
             subtotal := some (sumLineTotals items'),
             total_amount := some (sumLineTotals items' + inv.tax_amount.getD 0) }

/-- `page.tsx` lines 245-269 (`updateLineItem`).  Returns `none` where the
source would throw a `TypeError`: reading `.line_items` of a missing invoice
(`updated[invoiceIndex]` is `undefined`) or spreading an absent `line_items`
array.  An `itemIndex` beyond the array would create a sparse JS array in the
source; that case is likewise mapped to `none` and exercised by no claim. -/
def updateLineItem (l : List Invoice) (invoiceIndex itemIndex : Nat)
    (field : LIField) : Option (List Invoice) :=
  match l[invoiceIndex]? with
  | none => none
  | some inv =>
    match inv.line_items with
    | none => none
    | some items =>
      if itemIndex < items.length then
        let item1 := applyLIField (items.getD itemIndex default) field
        -- lines 256-260: recompute line_total when quantity or unit_price
        -- changed, reading the edited field from `value` and the other from
        -- the updated item.
        let item2 :=
          match field with
          | .quantity x => { item1 with line_total := some (x * item1.unit_price.getD 0) }
          | .unit_price x => { item1 with line_total := some (item1.quantity.getD 0 * x) }
          | _ => item1
        some (l.set invoiceIndex (recomputedInvoice inv (items.set itemIndex item2)))
      else none

/-- `page.tsx` lines 273-278: the placeholder item appended by `addLineItem`. -/
def newItem : LineItem :=
  { description := some "New Item", quantity := some 1,
    unit_price := some 0, line_total := some 0 }

/-- `page.tsx` lines 271-293 (`addLineItem`).  `none` where the source would
throw (assignment on a missing invoice); an absent `line_items` is defaulted
to `[]` by the source's `(... || [])`. -/
def addLineItem (l : List Invoice) (invoiceIndex : Nat) : Option (List Invoice) :=
  match l[invoiceIndex]? with
  | none => none
  | some inv =>
    some (l.set invoiceIndex (recomputedInvoice inv (inv.line_items.getD [] ++ [newItem])))

/-- `page.tsx` lines 295-310 (`deleteLineItem`).  The source filters by
position (`filter((_, idx) => idx !== itemIndex)`), which equals
`List.eraseIdx` — including the out-of-range case, where nothing is removed.
`none` where the source would throw (missing invoice or absent array). -/
def deleteLineItem (l : List Invoice) (invoiceIndex itemIndex : Nat) :
    Option (List Invoice) :=
  match l[invoiceIndex]? with
  | none => none
  | some inv =>
    match inv.line_items with
    | none => none
    | some items =>
      some (l.set invoiceIndex (recomputedInvoice inv (items.eraseIdx itemIndex)))

/-- The field/value pairs with which the editing UI calls `updateInvoice`
(`page.tsx` lines 528-824): text inputs pass the raw string, the amount
inputs pass `parseFloat(e.target.value) || 0`. -/
inductive TopField where
  | vendor_name (s : String)
  | vendor_address (s : String)
  | vendor_email (s : String)
  | vendor_phone (s : String)
  | invoice_number (s : String)
  | invoice_date (s : String)
  | due_date (s : String)
  | purchase_order_number (s : String)
  | subtotal (x : ℚ)
  | tax_amount (x : ℚ)
  | total_amount (x : ℚ)

/-- `page.tsx` lines 238-241: `{...updated[index], [field]: value}`. -/
def setTop (inv : Invoice) : TopField → Invoice
  | .vendor_name s => { inv with vendor_name := some s }
  | .vendor_address s => { inv with vendor_address := some s }
  | .vendor_email s => { inv with vendor_email := some s }
  | .vendor_phone s => { inv with vendor_phone := some s }
  | .invoice_number s => { inv with invoice_number := some s }
  | .invoice_date s => { inv with invoice_date := some s }
  | .due_date s => { inv with due_date := some s }
  | .purchase_order_number s => { inv with purchase_order_number := some s }
  | .subtotal x => { inv with subtotal := some x }
  | .tax_amount x => { inv with tax_amount := some x }
  | .total_amount x => { inv with total_amount := some x }

/-- `page.tsx` lines 236-243 (`updateInvoice`): overwrite one top-level field;
no recomputation.  An out-of-range index would extend the JS array with a
partial object in the source; that case is mapped to `none` and exercised by
no claim. -/
def updateInvoice (l : List Invoice) (index : Nat) (field : TopField) :
    Option (List Invoice) :=
  match l[index]? with
  | none => none
  | some inv => some (l.set index (setTop inv field))

/-- `page.tsx` lines 797-803, the inline tax input handler:
`tax_amount = newTax; total_amount = (subtotal || 0) + newTax` — note that
`subtotal` itself is left untouched.  `none` where the source would throw
(assignment on a missing invoice). -/
def updateTax (l : List Invoice) (index : Nat) (newTax : ℚ) :
    Option (List Invoice) :=
  match l[index]? with
  | none => none
  | some inv =>
    some (l.set index
      { inv with tax_amount := some newTax,
                 total_amount := some (inv.subtotal.getD 0 + newTax) })

/-! Extraction response normalizer, from `src/unnamed/part_000` (the
`/api/extract` route handler, lines 164-222). -/

/-- Index of the first occurrence of `c` in `l` (leftmost match). -/
def firstIdx (c : Char) : List Char → Option Nat
  | [] => none
  | x :: xs => if x = c then some 0 else (firstIdx c xs).map (· + 1)

/-- Index of the last occurrence of `c` in `l` (rightmost match). -/
def lastIdx (c : Char) : List Char → Option Nat
  | [] => none
  | x :: xs =>
    match lastIdx c xs with
    | some j => some (j + 1)
    | none => if x = c then some 0 else none

/-- Route lines 169-177: `responseText.match(/\x7b[\s\S]*\x7d/)`.  The regex
matches from the first opening brace through the last closing brace of the
whole reply (greedy), and matches at all exactly when some closing brace
follows some opening brace. -/
def extractCandidate (s : String) : Option String :=
  match firstIdx '\x7b' s.data, lastIdx '\x7d' s.data with
  | some i, some j => if i < j then some ⟨(s.data.drop i).take (j - i + 1)⟩ else none
  | _, _ => none

/-- The reply contains a substring spanning an opening brace through a later
closing brace (the condition under which the route's regex matches). -/
def HasBraceSpan (s : String) : Prop :=
  ∃ i : Fin s.data.length, ∃ j : Fin s.data.length,
    i.1 < j.1 ∧ s.data.get i = '\x7b' ∧ s.data.get j = '\x7d'

instance (s : String) : Decidable (HasBraceSpan s) := by
  unfold HasBraceSpan; infer_instance

/-- Drop characters up to and including the first `>`; `none` if there is no
`>`.  This is the tail left after the regex `<[^>]*>` consumes one tag. -/
def splitAtGt : List Char → Option (List Char)
  | [] => none
  | c :: cs => if c = '>' then some cs else splitAtGt cs

/-- Fuel-indexed worker for `stripTags`; fuel `l.length` always suffices
because each step consumes at least one character. -/
def stripTagsFuel : Nat → List Char → List Char
  | 0, l => l
  | _ + 1, [] => []
  | fuel + 1, c :: cs =>
    if c = '<' then
      match splitAtGt cs with
      | some rest => stripTagsFuel fuel rest
      | none => c :: stripTagsFuel fuel cs
    else c :: stripTagsFuel fuel cs

/-- Route line 195: `str.replace(/<[^>]*>/g, "")` — remove every substring
running from a `<` through the next `>`; a `<` with no later `>` is kept. -/
def stripTags (l : List Char) : List Char :=
  stripTagsFuel l.length l

/-- JavaScript `String.prototype.trim`, modelled over ASCII whitespace. -/
def jsTrim (l : List Char) : List Char :=
  ((l.dropWhile Char.isWhitespace).reverse.dropWhile Char.isWhitespace).reverse

/-- Route line 195: the transformation `sanitize` applies to a string. -/
def cleanStr (s : String) : String :=
  ⟨jsTrim (stripTags s.data)⟩

/-- Route lines 192-198 (`sanitize`): strings are tag-stripped and trimmed,
every other value is returned unchanged. -/
def sanitize : JVal → JVal
  | .str s => .str (cleanStr s)
  | v => v

/-- JavaScript property read `obj[k]` on the object's field list: the first
binding wins, a missing key reads as `undefined`. -/
def getKey (fields : List (String × JVal)) (k : String) : JVal :=
  match fields.find? (fun kv => kv.1 == k) with
  | some kv => kv.2
  | none => .undefined

/-- JavaScript property write `obj[k] = v` (also `{...obj, k: v}`): an
existing key keeps its position and gets the new value, a fresh key is
appended. -/
def setKey (fields : List (String × JVal)) (k : String) (v : JVal) :
    List (String × JVal) :=
  if fields.any (fun kv => kv.1 == k) then
    fields.map (fun kv => if kv.1 == k then (kv.1, v) else kv)
  else
    fields ++ [(k, v)]

/-- Route lines 201-205: `Object.keys(extractedData).forEach(...)` assigns
`sanitize(v)` to every string-valued key.  Since `sanitize` is the identity
on non-strings, this equals mapping `sanitize` over every value. -/
def sanitizeTop (fields : List (String × JVal)) : List (String × JVal) :=
  fields.map (fun kv => (kv.1, sanitize kv.2))

/-- Route lines 209-212: `{...item, description: sanitize(item.description)}`.
Reading `.description` of a `null` element throws a `TypeError` (`none`);
spreading a primitive yields an object carrying only the new key. -/
def sanitizeItem : JVal → Option JVal
  | .null => none
  | .obj fs => some (.obj (setKey fs "description" (sanitize (getKey fs "description"))))
  | _ => some (.obj [("description", JVal.undefined)])

/-- Route lines 200-213: the whole sanitize pass — every top-level string
field, then, when `line_items` is an array, every element's `description`.
`none` when the pass throws (a `null` line-item element). -/
def sanitizeData (fields : List (String × JVal)) :
    Option (List (String × JVal)) :=
  match getKey (sanitizeTop fields) "line_items" with
  | .arr items =>
    (items.mapM sanitizeItem).map
      (fun items' => setKey (sanitizeTop fields) "line_items" (.arr items'))
  | _ => some (sanitizeTop fields)

/-- The route's failure modes past the pre-flight checks: no brace span in
the reply (status 500, "Failed to extract structured data from invoice"),
a JSON syntax error (status 500, "Failed to parse extracted data"), and the
outer catch-all (status 500, "Failed to process invoice"). -/
inductive ExtractError where
  | noStructuredPayload
  | malformedPayload
  | processingFailure
deriving DecidableEq, Repr

/-- Route lines 164-222: locate the brace span, parse it, sanitize the
result.  `JSON.parse` is an external library call and is passed in as
`parse`, with `none` standing for a thrown `SyntaxError`. -/
def normalize (parse : String → Option (List (String × JVal)))
    (reply : String) : Except ExtractError (List (String × JVal)) :=
  match extractCandidate reply with
  | none => .error .noStructuredPayload
  | some candidate =>
    match parse candidate with
    | none => .error .malformedPayload
    | some data =>
      match sanitizeData data with
      | none => .error .processingFailure
      | some clean => .ok clean

/-! Tabular exporter, from `page.tsx` lines 169-234 (`exportToCSV`). -/

/-- Rendering of a JavaScript number into the CSV text.  The exact digit
string JS produces is irrelevant to every claim; what matters is which
rational is rendered in which cell. -/
def numStr (x : ℚ) : String := toString x

/-- `page.tsx` lines 183-188, 206-211: a text field is wrapped in double
quotes by the template literal `"${...}"`, with the content emitted
verbatim (no escaping of any kind). -/
def quoteField (s : String) : String := "\"" ++ s ++ "\""

/-- The twelve cells of one line-item row (`page.tsx` lines 182-203).
The source writes each of the first nine cells followed by a comma and
then either the three totals (first row of the invoice) or `,,` — which
is exactly the comma-join of this cell list. -/
def itemRowCells (inv : Invoice) (item : LineItem) (first : Bool) :
    List String :=
  [quoteField (inv.vendor_name.getD ""),
   quoteField (inv.invoice_number.getD ""),
   quoteField (inv.invoice_date.getD ""),
   quoteField (inv.due_date.getD ""),
   quoteField (inv.purchase_order_number.getD ""),
   quoteField (item.description.getD ""),
   numStr (item.quantity.getD 0),
   numStr (item.unit_price.getD 0),
   numStr (item.line_total.getD 0)] ++
  (if first then
    [numStr (inv.subtotal.getD 0), numStr (inv.tax_amount.getD 0),
     numStr (inv.total_amount.getD 0)]
   else ["", "", ""])

/-- The twelve cells of the placeholder row for an invoice without line
items (`page.tsx` lines 206-214): `"No line items",,,,` leaves the
quantity, unit-price and line-total cells empty and the totals populated. -/
def noItemsRowCells (inv : Invoice) : List String :=
  [quoteField (inv.vendor_name.getD ""),
   quoteField (inv.invoice_number.getD ""),
   quoteField (inv.invoice_date.getD ""),
   quoteField (inv.due_date.getD ""),
   quoteField (inv.purchase_order_number.getD ""),
   quoteField "No line items", "", "", "",
   numStr (inv.subtotal.getD 0), numStr (inv.tax_amount.getD 0),
   numStr (inv.total_amount.getD 0)]

/-- Comma-join of a row's cells into the row text. -/
def rowOfCells : List String → String
  | [] => ""
  | [c] => c
  | c :: cs => c ++ "," ++ rowOfCells cs

/-- The per-item rows of one invoice, carrying the running index of the
source's `forEach((item, index) => ...)`. -/
def itemRowsFrom (inv : Invoice) (i : Nat) : List LineItem → List (List String)
  | [] => []
  | item :: rest => itemRowCells inv item (i == 0) :: itemRowsFrom inv (i + 1) rest

/-- `page.tsx` lines 179-216: an invoice with a nonempty `line_items` array
produces one row per item, anything else (absent or empty array — the
source's `line_items && line_items.length > 0` guard) produces the single
placeholder row. -/
def invoiceRows (inv : Invoice) : List (List String) :=
  match inv.line_items with
  | some (item :: rest) => itemRowsFrom inv 0 (item :: rest)
  | _ => [noItemsRowCells inv]

/-- `page.tsx` line 176: the header row. -/
def csvHeader : String :=
  "Vendor,Invoice Number,Invoice Date,Due Date,PO Number,Description,Quantity,Unit Price,Line Total,Subtotal,Tax,Total"

/-- `page.tsx` lines 172-216: the CSV text — header, then every invoice's
rows in order, each row terminated by a newline. -/
def csvContent (l : List Invoice) : String :=
  csvHeader ++ "\n" ++
    String.join ((l.map invoiceRows).flatten.map (fun r => rowOfCells r ++ "\n"))

/-- `page.tsx` lines 169-170: the export button does nothing on an empty
ledger (`if (extractedInvoices.length === 0) return`). -/
def exportToCSV (l : List Invoice) : Option String :=
  if l.isEmpty then none else some (csvContent l)

/-- Modelled from the spec: RFC 4180 quoting ("standard CSV quoting", §4.5
and claim C10) doubles every double-quote character of the content. -/
def escapeQuotes : List Char → List Char
  | [] => []
  | c :: cs => if c = '"' then '"' :: '"' :: escapeQuotes cs else c :: escapeQuotes cs

/-- Modelled from the spec: a standard-CSV quoted field — content with
doubled quotes, wrapped in double quotes. -/
def rfc4180Quote (s : String) : String :=
  "\"" ++ String.mk (escapeQuotes s.data) ++ "\""

/-- `page.tsx` line 700: the quantity shown by the editing UI,
`value={item.quantity || 0}`. -/
def displayQuantity (item : LineItem) : ℚ := item.quantity.getD 0

/-! Batch orchestrator, from `page.tsx` lines 90-159 (`handleSubmit`). -/

/-- One uploaded document as the batch loop sees it; only the display name
is consumed by the loop itself (the bytes go straight to the external
call). -/
structure RawDoc where
  name : String
deriving DecidableEq, Repr

/-- `page.tsx` lines 104-141: the sequential per-file loop.  The full round
trip of one document (request build, `fetch`, response check, JSON body) is
the external step `call`; a thrown error of any kind is its `.error` case.
A success is pushed as `{...result.data, _filename: file.name}` — modelled
as the pair of the record and the name; a failure pushes the name onto
`failedFiles` and the loop continues. -/
def processBatch {E R : Type} (call : RawDoc → Except E R) :
    List RawDoc → List (R × String) × List String
  | [] => ([], [])
  | d :: ds =>
    let rest := processBatch call ds
    match call d with
    | .ok r => ((r, d.name) :: rest.1, rest.2)
    | .error _ => (rest.1, d.name :: rest.2)

/-! Helper lemmas. -/

theorem firstIdx_spec {c : Char} :
    ∀ {l : List Char} {i : Nat}, firstIdx c l = some i →
      ∃ h : i < l.length, l[i] = c := by
  intro l
  induction l with
  | nil => intro i h; simp [firstIdx] at h
  | cons x xs ih =>
    intro i h
    by_cases hx : x = c
    · simp [firstIdx, hx] at h
      subst h
      exact ⟨by simp, by simpa using hx⟩
    · simp [firstIdx, hx] at h
      obtain ⟨i0, hi0, rfl⟩ := h
      obtain ⟨h1, h2⟩ := ih hi0
      exact ⟨by simpa using h1, by simpa using h2⟩

theorem firstIdx_min {c : Char} :
    ∀ {l : List Char} {i k : Nat} (hk : k < l.length),
      firstIdx c l = some i → l[k] = c → i ≤ k := by
  intro l
  induction l with
  | nil => intro i k hk; simp at hk
  | cons x xs ih =>
    intro i k hk h hget
    by_cases hx : x = c
    · simp [firstIdx, hx] at h
      omega
    · simp [firstIdx, hx] at h
      obtain ⟨i0, hi0, rfl⟩ := h
      match k with
      | 0 => simp at hget; exact absurd hget hx
      | k0 + 1 =>
        have : i0 ≤ k0 := ih (by simpa using hk) hi0 (by simpa using hget)
        omega

theorem firstIdx_isSome {c : Char} :
    ∀ {l : List Char} {k : Nat} (hk : k < l.length),
      l[k] = c → (firstIdx c l).isSome := by
  intro l
  induction l with
  | nil => intro k hk; simp at hk
  | cons x xs ih =>
    intro k hk hget
    by_cases hx : x = c
    · simp [firstIdx, hx]
    · match k with
      | 0 => simp at hget; exact absurd hget hx
      | k0 + 1 =>
        have := ih (by simpa using hk) (by simpa using hget)
        simp [firstIdx, hx]
        simpa [Option.isSome_iff_exists] using this

theorem lastIdx_spec {c : Char} :
    ∀ {l : List Char} {j : Nat}, lastIdx c l = some j →
      ∃ h : j < l.length, l[j] = c := by
  intro l
  induction l with
  | nil => intro j h; simp [lastIdx] at h
  | cons x xs ih =>
    intro j h
    unfold lastIdx at h
    cases htail : lastIdx c xs with
    | some j0 =>
      rw [htail] at h
      simp at h
      subst h
      obtain ⟨h1, h2⟩ := ih htail
      exact ⟨by simpa using h1, by simpa using h2⟩
    | none =>
      rw [htail] at h
      by_cases hx : x = c
      · simp [hx] at h
        subst h
        exact ⟨by simp, by simpa using hx⟩
      · simp [hx] at h

theorem lastIdx_isSome {c : Char} :
    ∀ {l : List Char} {k : Nat} (hk : k < l.length),
      l[k] = c → (lastIdx c l).isSome := by
  intro l
  induction l with
  | nil => intro k hk; simp at hk
  | cons x xs ih =>
    intro k hk hget
    unfold lastIdx
    cases hty : lastIdx c xs with
    | some j1 => simp
    | none =>
      match k with
      | 0 =>
        simp at hget
        simp [hget]
      | k0 + 1 =>
        have := ih (by simpa using hk) (by simpa using hget)
        simp [hty] at this

theorem lastIdx_max {c : Char} :
    ∀ {l : List Char} {j k : Nat} (hk : k < l.length),
      lastIdx c l = some j → l[k] = c → k ≤ j := by
  intro l
  induction l with
  | nil => intro j k hk; simp at hk
  | cons x xs ih =>
    intro j k hk h hget
    unfold lastIdx at h
    cases htail : lastIdx c xs with
    | some j0 =>
      rw [htail] at h
      simp at h
      subst h
      match k with
      | 0 => omega
      | k0 + 1 =>
        have : k0 ≤ j0 := ih (by simpa using hk) htail (by simpa using hget)
        omega
    | none =>
      rw [htail] at h
      by_cases hx : x = c
      · simp [hx] at h
        subst h
        match k with
        | 0 => omega
        | k0 + 1 =>
          have : (lastIdx c xs).isSome :=
            lastIdx_isSome (by simpa using hk) (by simpa using hget)
          rw [htail] at this
          simp at this
      · simp [hx] at h

theorem extractCandidate_isSome_iff (s : String) :
    (extractCandidate s).isSome ↔ HasBraceSpan s := by
  constructor
  · intro h
    unfold extractCandidate at h
    cases hfi : firstIdx '\x7b' s.data with
    | none => rw [hfi] at h; simp at h
    | some i =>
      cases hla : lastIdx '\x7d' s.data with
      | none => rw [hfi, hla] at h; simp at h
      | some j =>
        rw [hfi, hla] at h
        by_cases hij : i < j
        · obtain ⟨h1, hg1⟩ := firstIdx_spec hfi
          obtain ⟨h2, hg2⟩ := lastIdx_spec hla
          exact ⟨⟨i, h1⟩, ⟨j, h2⟩, hij, by simpa using hg1, by simpa using hg2⟩
        · simp [hij] at h
  · rintro ⟨⟨a, ha⟩, ⟨b, hb⟩, hab, hga, hgb⟩
    simp only [List.get_eq_getElem] at hga hgb
    have hab' : a < b := by simpa using hab
    have hf := firstIdx_isSome (c := '\x7b') ha hga
    have hl := lastIdx_isSome (c := '\x7d') hb hgb
    obtain ⟨i, hfi⟩ := Option.isSome_iff_exists.mp hf
    obtain ⟨j, hla⟩ := Option.isSome_iff_exists.mp hl
    have h1 : i ≤ a := firstIdx_min ha hfi hga
    have h2 : b ≤ j := lastIdx_max hb hla hgb
    have hij : i < j := by omega
    unfold extractCandidate
    rw [hfi, hla]
    simp [hij]

theorem extractCandidate_eq_none_iff (s : String) :
    extractCandidate s = none ↔ ¬ HasBraceSpan s := by
  rw [← extractCandidate_isSome_iff]
  cases extractCandidate s <;> simp

theorem getKey_sanitizeTop (fields : List (String × JVal)) (k : String) :
    getKey (sanitizeTop fields) k = sanitize (getKey fields k) := by
  induction fields with
  | nil => simp [getKey, sanitizeTop, sanitize]
  | cons kv rest ih =>
    by_cases hk : kv.1 == k
    · simp [getKey, sanitizeTop, List.find?, hk]
    · simpa [getKey, sanitizeTop, List.find?, hk] using ih

theorem getKey_setKey_self (fields : List (String × JVal)) (k : String) (v : JVal) :
    getKey (setKey fields k v) k = v := by
  unfold setKey
  by_cases hany : fields.any (fun kv => kv.1 == k)
  · simp only [hany, if_true]
    induction fields with
    | nil => simp at hany
    | cons kv rest ih =>
      by_cases hk : kv.1 == k
      · simp [getKey, List.find?, hk]
      · have hrest : rest.any (fun kv => kv.1 == k) := by
          simpa [List.any_cons, hk] using hany
        simpa [getKey, List.find?, hk] using ih hrest
  · simp only [hany, if_false]
    induction fields with
    | nil => simp [getKey, List.find?]
    | cons kv rest ih =>
      have hk : ¬ (kv.1 == k) := by
        intro h
        exact hany (by simp [List.any_cons, h])
      have hrest : ¬ rest.any (fun kv => kv.1 == k) := by
        intro h
        exact hany (by simp [List.any_cons, h])
      simpa [getKey, List.find?, hk] using ih hrest

theorem getKey_map_replace_ne (k k' : String) (v : JVal) (hne : k' ≠ k) :
    ∀ (fields : List (String × JVal)),
      getKey (fields.map (fun kv => if kv.1 == k then (kv.1, v) else kv)) k' =
        getKey fields k' := by
  intro fields
  induction fields with
  | nil => simp [getKey]
  | cons kv rest ih =>
    by_cases hk : kv.1 == k
    · have hk1 : kv.1 = k := by simpa using hk
      have hk' : ¬ (kv.1 == k') := by
        simp [hk1]
        exact fun h => hne h.symm
      simp only [List.map_cons, hk, if_true]
      simpa [getKey, List.find?, hk'] using ih
    · simp only [List.map_cons, hk, if_false]
      by_cases hk2 : kv.1 == k'
      · simp [getKey, List.find?, hk2]
      · simpa [getKey, List.find?, hk2] using ih

theorem getKey_append_single_ne (k k' : String) (v : JVal) (hne : k' ≠ k) :
    ∀ (fields : List (String × JVal)),
      getKey (fields ++ [(k, v)]) k' = getKey fields k' := by
  intro fields
  induction fields with
  | nil =>
    have : ¬ (k == k') := by simpa using fun h => hne h.symm
    simp [getKey, List.find?, this]
  | cons kv rest ih =>
    by_cases hk2 : kv.1 == k'
    · simp [getKey, List.find?, hk2]
    · simpa [getKey, List.find?, hk2] using ih

theorem getKey_setKey_ne (fields : List (String × JVal)) (k k' : String)
    (v : JVal) (hne : k' ≠ k) :
    getKey (setKey fields k v) k' = getKey fields k' := by
  unfold setKey
  by_cases hany : fields.any (fun kv => kv.1 == k)
  · simp only [hany, if_true]
    exact getKey_map_replace_ne k k' v hne fields
  · simp only [hany, if_false]
    exact getKey_append_single_ne k k' v hne fields

theorem mapM_option_getElem? {α β : Type} (f : α → Option β) :
    ∀ {l : List α} {l' : List β} {i : Nat} {a : α},
      l.mapM f = some l' → l[i]? = some a →
      ∃ b, f a = some b ∧ l'[i]? = some b := by
  intro l
  induction l with
  | nil => intro l' i a _ hi; simp at hi
  | cons x xs ih =>
    intro l' i a hm hi
    rw [List.mapM_cons] at hm
    cases hfx : f x with
    | none => rw [hfx] at hm; simp at hm
    | some b0 =>
      rw [hfx] at hm
      cases hxs : xs.mapM f with
      | none => rw [hxs] at hm; simp at hm
      | some bs =>
        rw [hxs] at hm
        simp at hm
        subst hm
        match i with
        | 0 =>
          simp at hi
          subst hi
          exact ⟨b0, hfx, by simp⟩
        | i0 + 1 =>
          obtain ⟨b, hb1, hb2⟩ := ih hxs (by simpa using hi)
          exact ⟨b, hb1, by simpa using hb2⟩

theorem itemRowsFrom_length (inv : Invoice) :
    ∀ (l : List LineItem) (i : Nat), (itemRowsFrom inv i l).length = l.length := by
  intro l
  induction l with
  | nil => intro i; simp [itemRowsFrom]
  | cons item rest ih => intro i; simp [itemRowsFrom, ih]

theorem itemRowsFrom_getElem? (inv : Invoice) :
    ∀ (l : List LineItem) (i k : Nat),
      (itemRowsFrom inv i l)[k]? =
        (l[k]?).map (fun item => itemRowCells inv item ((i + k) == 0)) := by
  intro l
  induction l with
  | nil => intro i k; simp [itemRowsFrom]
  | cons item rest ih =>
    intro i k
    match k with
    | 0 => simp [itemRowsFrom]
    | k0 + 1 =>
      have := ih (i + 1) k0
      simp only [itemRowsFrom, List.getElem?_cons_succ]
      rw [this]
      have harith : i + 1 + k0 = i + (k0 + 1) := by omega
      rw [harith]

theorem escapeQuotes_of_not_mem :
    ∀ {l : List Char}, '"' ∉ l → escapeQuotes l = l := by
  intro l
  induction l with
  | nil => intro _; simp [escapeQuotes]
  | cons c cs ih =>
    intro h
    have hc : ¬ c = '"' := by
      intro hc; exact h (by simp [hc])
    have hcs : '"' ∉ cs := fun hm => h (by simp [hm])
    simp [escapeQuotes, hc, ih hcs]

theorem length_escapeQuotes :
    ∀ (l : List Char), (escapeQuotes l).length = l.length + l.count '"' := by
  intro l
  induction l with
  | nil => simp [escapeQuotes]
  | cons c cs ih =>
    by_cases hc : c = '"'
    · subst hc
      simp [escapeQuotes, ih, List.count_cons]
      omega
    · have : ¬ (c == '"') := by simpa using hc
      simp [escapeQuotes, hc, ih, List.count_cons, this]
      omega

/-- The state of one invoice after the ledger's recompute block: the stored
`subtotal` is the sum of the stored line totals, and the stored
`total_amount` is that sum plus `tax_amount` (absent read as `0`). -/
def Recomputed (inv : Invoice) : Prop :=
  ∃ items, inv.line_items = some items ∧
    inv.subtotal = some (sumLineTotals items) ∧
    inv.total_amount = some (sumLineTotals items + inv.tax_amount.getD 0)

/-- `b` is `a` with exactly the named top-level field overwritten and every
other field (including `line_items`, `subtotal` and `total_amount` when they
are not the target) untouched. -/
def UpdatesOnly (a b : Invoice) : TopField → Prop
  | .vendor_name s => b = { a with vendor_name := some s }
  | .vendor_address s => b = { a with vendor_address := some s }
  | .vendor_email s => b = { a with vendor_email := some s }
  | .vendor_phone s => b = { a with vendor_phone := some s }
  | .invoice_number s => b = { a with invoice_number := some s }
  | .invoice_date s => b = { a with invoice_date := some s }
  | .due_date s => b = { a with due_date := some s }
  | .purchase_order_number s => b = { a with purchase_order_number := some s }
  | .subtotal x => b = { a with subtotal := some x }
  | .tax_amount x => b = { a with tax_amount := some x }
  | .total_amount x => b = { a with total_amount := some x }

/-! Claim theorems. -/

/-- Claim C5 (confirmed): for every ordered batch and every behaviour of the
per-document round trip, the successful records (with the document name
attached) are exactly the input sequence restricted to the successful
documents in input order, and the failure list is exactly the names of the
failing documents in input order — one failing document never aborts the
batch. -/
theorem claim_c5_batch_isolation {E R : Type} (call : RawDoc → Except E R)
    (docs : List RawDoc) :
    (processBatch call docs).1 =
      docs.filterMap (fun d =>
        match call d with
        | .ok r => some (r, d.name)
        | .error _ => none) ∧
    (processBatch call docs).2 =
      docs.filterMap (fun d =>
        match call d with
        | .ok _ => none
        | .error _ => some d.name) := by
  induction docs with
  | nil => simp [processBatch]
  | cons d ds ih =>
    cases hc : call d with
    | ok r => simp [processBatch, hc, List.filterMap_cons, ih.1, ih.2]
    | error e => simp [processBatch, hc, List.filterMap_cons, ih.1, ih.2]

/-- Claim C7 (confirmed): for a valid invoice index, `updateInvoice`
overwrites exactly the named top-level field of exactly that invoice: the
ledger keeps its length, every other invoice is untouched, the target
invoice's `line_items` and every other field are untouched, and no
subtotal/total recomputation happens. -/
theorem claim_c7_update_field_frame (l : List Invoice) (i : Nat)
    (fld : TopField) (inv : Invoice) (h : l[i]? = some inv) :
    updateInvoice l i fld = some (l.set i (setTop inv fld)) ∧
    (l.set i (setTop inv fld)).length = l.length ∧
    (∀ j, j ≠ i → (l.set i (setTop inv fld))[j]? = l[j]?) ∧
    (l.set i (setTop inv fld))[i]? = some (setTop inv fld) ∧
    UpdatesOnly inv (setTop inv fld) fld ∧
    (setTop inv fld).line_items = inv.line_items := by
  have hi : i < l.length := (List.getElem?_eq_some.mp h).1
  refine ⟨?_, ?_, ?_, ?_, ?_, ?_⟩
  · simp [updateInvoice, h]
  · simp
  · intro j hj
    exact List.getElem?_set_ne (fun hij => hj hij.symm)
  · exact List.getElem?_set_eq_of_lt _ hi
  · cases fld <;> rfl
  · cases fld <;> rfl

/-- Claim C2 (confirmed): with valid invoice and item indices,
`updateLineItem` with field `quantity` (resp. `unit_price`) stores the new
value and recomputes that item's `line_total` as the product of the new
value and the other factor (absent read as `0`); with field `line_total` it
stores the given value and leaves `quantity` and `unit_price` exactly as
they were — no back-solving.  The result is the single invoice updated with
the new item array and the recomputed subtotal/total. -/
theorem claim_c2_line_total_recompute (l : List Invoice) (i j : Nat) (x : ℚ)
    (inv : Invoice) (items : List LineItem) (item : LineItem)
    (hinv : l[i]? = some inv) (hitems : inv.line_items = some items)
    (hitem : items[j]? = some item) :
    updateLineItem l i j (.quantity x) =
      some (l.set i (recomputedInvoice inv (items.set j
        { item with quantity := some x,
                    line_total := some (x * item.unit_price.getD 0) }))) ∧
    updateLineItem l i j (.unit_price x) =
      some (l.set i (recomputedInvoice inv (items.set j
        { item with unit_price := some x,
                    line_total := some (item.quantity.getD 0 * x) }))) ∧
    updateLineItem l i j (.line_total x) =
      some (l.set i (recomputedInvoice inv (items.set j
        { item with line_total := some x }))) := by
  obtain ⟨hj, hv⟩ := List.getElem?_eq_some.mp hitem
  have hg : items.getD j default = item := by
    simp [List.getD_eq_getElem?_getD, hitem]
  refine ⟨?_, ?_, ?_⟩ <;>
    simp [updateLineItem, hinv, hitems, hj, hg, hv, applyLIField]

/-- Claim C1 (corrected): after any single line-item mutation with a valid
index (`updateLineItem`, `addLineItem`, `deleteLineItem`), the touched
invoice satisfies `subtotal = sum of line totals` and
`total_amount = subtotal + tax_amount` (absent tax read as `0`).  After an
edit of `tax_amount`, however, only `total_amount = subtotal + newTax` is
re-established: the stored `subtotal` is left exactly as it was, so it need
not equal the sum of the line totals. -/
theorem claim_c1_recompute_invariant (l : List Invoice) (i : Nat) :
    (∀ j fld l', updateLineItem l i j fld = some l' →
      ∃ inv', l'[i]? = some inv' ∧ Recomputed inv') ∧
    (∀ l', addLineItem l i = some l' →
      ∃ inv', l'[i]? = some inv' ∧ Recomputed inv') ∧
    (∀ j l', deleteLineItem l i j = some l' →
      ∃ inv', l'[i]? = some inv' ∧ Recomputed inv') ∧
    (∀ t inv, l[i]? = some inv →
      updateTax l i t = some (l.set i
        { inv with tax_amount := some t,
                   total_amount := some (inv.subtotal.getD 0 + t) })) := by
  refine ⟨?_, ?_, ?_, ?_⟩
  · intro j fld l' h
    cases hinv : l[i]? with
    | none => simp [updateLineItem, hinv] at h
    | some inv =>
      have hi : i < l.length := (List.getElem?_eq_some.mp hinv).1
      cases hitems : inv.line_items with
      | none => simp [updateLineItem, hinv, hitems] at h
      | some items =>
        by_cases hj : j < items.length
        · simp only [updateLineItem, hinv, hitems, hj, if_true,
            Option.some_inj] at h
          subst h
          refine ⟨_, List.getElem?_set_eq_of_lt _ hi, ?_⟩
          exact ⟨_, rfl, rfl, rfl⟩
        · simp [updateLineItem, hinv, hitems, hj] at h
  · intro l' h
    cases hinv : l[i]? with
    | none => simp [addLineItem, hinv] at h
    | some inv =>
      have hi : i < l.length := (List.getElem?_eq_some.mp hinv).1
      simp only [addLineItem, hinv, Option.some_inj] at h
      subst h
      refine ⟨_, List.getElem?_set_eq_of_lt _ hi, ?_⟩
      exact ⟨_, rfl, rfl, rfl⟩
  · intro j l' h
    cases hinv : l[i]? with
    | none => simp [deleteLineItem, hinv] at h
    | some inv =>
      have hi : i < l.length := (List.getElem?_eq_some.mp hinv).1
      cases hitems : inv.line_items with
      | none => simp [deleteLineItem, hinv, hitems] at h
      | some items =>
        simp only [deleteLineItem, hinv, hitems, Option.some_inj] at h
        subst h
        refine ⟨_, List.getElem?_set_eq_of_lt _ hi, ?_⟩
        exact ⟨_, rfl, rfl, rfl⟩
  · intro t inv hinv
    simp [updateTax, hinv]

/-- Claim C9 (corrected): `deleteLineItem` with a valid invoice index, an
existing item array and an out-of-range item index removes nothing but still
runs the recompute block, overwriting `subtotal` and `total_amount` (so the
state can change if those were overridden); with an out-of-range invoice
index, or an absent item array, it throws instead of silently no-opping. -/
theorem claim_c9_delete_out_of_range (l : List Invoice) (i j : Nat) :
    (∀ inv items, l[i]? = some inv → inv.line_items = some items →
      items.length ≤ j →
      deleteLineItem l i j = some (l.set i (recomputedInvoice inv items))) ∧
    (l[i]? = none → deleteLineItem l i j = none) ∧
    (∀ inv, l[i]? = some inv → inv.line_items = none →
      deleteLineItem l i j = none) := by
  refine ⟨?_, ?_, ?_⟩
  · intro inv items hinv hitems hlen
    simp [deleteLineItem, hinv, hitems, List.eraseIdx_of_length_le hlen]
  · intro hnone
    simp [deleteLineItem, hnone]
  · intro inv hinv hitems
    simp [deleteLineItem, hinv, hitems]

/-- A line item whose stored total is `10`. -/
def taxItem : LineItem :=
  { description := some "w", quantity := some 1, unit_price := some 10,
    line_total := some 10 }

/-- An invoice whose user-overridden `subtotal` (`99`) differs from the sum
of its line totals (`10`). -/
def taxInv : Invoice :=
  { subtotal := some 99, tax_amount := some 0, total_amount := some 99,
    line_items := some [taxItem] }

/-- Claim C1 counterexample: editing `tax_amount` on an invoice whose
`subtotal` was overridden to `99` leaves `subtotal` at `99`, which differs
from the sum of the line totals (`10`) — so the claim that after any edit of
`tax_amount` the subtotal equals that sum is false. -/
theorem claim_c1_counterexample :
    (updateTax [taxInv] 0 5).map (List.map Invoice.subtotal) = some [some 99] ∧
    (updateTax [taxInv] 0 5).map (List.map Invoice.line_items) =
      some [some [taxItem]] ∧
    sumLineTotals [taxItem] = 10 ∧ (99 : ℚ) ≠ 10 := by
  refine ⟨rfl, rfl, ?_, by norm_num⟩
  simp [sumLineTotals, taxItem]

/-- Claim C1 witness: `addLineItem` at a valid index yields an invoice
satisfying the recompute invariant. -/
def c1In : Invoice :=
  { tax_amount := some 0, line_items := some [],
    subtotal := some 0, total_amount := some 0 }

/-- The ledger entry produced by `addLineItem [c1In] 0`. -/
def c1Out : Invoice :=
  { c1In with line_items := some [newItem],
              subtotal := some (sumLineTotals [newItem]),
              total_amount := some (sumLineTotals [newItem] + 0) }

theorem claim_c1_witness :
    addLineItem [c1In] 0 = some [c1Out] ∧ Recomputed c1Out := by
  have happ : addLineItem [c1In] 0 = some [c1Out] := rfl
  obtain ⟨inv', h1, h2⟩ :=
    (claim_c1_recompute_invariant [c1In] 0).2.1 [c1Out] happ
  have heq : inv' = c1Out := by
    have := h1
    simp at this
    exact this.symm
  exact ⟨happ, heq ▸ h2⟩

/-- Claim C2 witness: a concrete direct `line_total` edit stores the value
and leaves the item's other fields as they were. -/
theorem claim_c2_witness :
    updateLineItem [taxInv] 0 0 (.line_total 5) =
      some ([taxInv].set 0 (recomputedInvoice taxInv
        ([taxItem].set 0 { taxItem with line_total := some 5 }))) :=
  (claim_c2_line_total_recompute [taxInv] 0 0 5 taxInv [taxItem] taxItem
    rfl rfl rfl).2.2

/-- Claim C7 witness: a concrete `subtotal` override on the first of two
invoices leaves the second invoice and the first invoice's line items
untouched. -/
def c7inv : Invoice :=
  { vendor_name := some "Acme", subtotal := some 3, line_items := some [] }

/-- A second ledger entry, untouched by the edit. -/
def c7other : Invoice := { vendor_name := some "Other" }

theorem claim_c7_witness :
    updateInvoice [c7inv, c7other] 0 (.subtotal 7) =
      some ([c7inv, c7other].set 0 (setTop c7inv (.subtotal 7))) ∧
    ([c7inv, c7other].set 0 (setTop c7inv (.subtotal 7))).length = 2 ∧
    ([c7inv, c7other].set 0 (setTop c7inv (.subtotal 7)))[1]? = some c7other ∧
    UpdatesOnly c7inv (setTop c7inv (.subtotal 7)) (.subtotal 7) ∧
    (setTop c7inv (.subtotal 7)).line_items = c7inv.line_items := by
  obtain ⟨h1, h2, h3, _, h5, h6⟩ :=
    claim_c7_update_field_frame [c7inv, c7other] 0 (.subtotal 7) c7inv rfl
  exact ⟨h1, h2, by rw [h3 1 (by omega)]; rfl, h5, h6⟩

/-- Claim C9 counterexample: deleting with out-of-range item index `5` on an
invoice whose `subtotal` was overridden to `99` is not a no-op — the
recompute block overwrites `subtotal` with the sum of the line totals
(`10`), so the state changes (and in particular the result is not the
original ledger). -/
theorem claim_c9_counterexample :
    (deleteLineItem [taxInv] 0 5).map (List.map Invoice.subtotal) =
      some [some (sumLineTotals [taxItem])] ∧
    sumLineTotals [taxItem] = 10 ∧
    taxInv.subtotal = some 99 ∧
    deleteLineItem [taxInv] 0 5 ≠ some [taxInv] := by
  have hsum : sumLineTotals [taxItem] = 10 := by simp [sumLineTotals, taxItem]
  refine ⟨rfl, hsum, rfl, ?_⟩
  intro h
  have h1 : (deleteLineItem [taxInv] 0 5).map (List.map Invoice.subtotal) =
      some [some 99] := by rw [h]; rfl
  have h2 : (deleteLineItem [taxInv] 0 5).map (List.map Invoice.subtotal) =
      some [some (sumLineTotals [taxItem])] := rfl
  rw [h1, hsum] at h2
  simp at h2

/-- Claim C9 witness: a concrete out-of-range delete returns the recomputed
invoice, and a concrete out-of-range invoice index returns the thrown
(`none`) case. -/
theorem claim_c9_witness :
    deleteLineItem [taxInv] 0 5 =
      some ([taxInv].set 0 (recomputedInvoice taxInv [taxItem])) ∧
    deleteLineItem [taxInv] 3 0 = none := by
  obtain ⟨h1, h2, _⟩ := claim_c9_delete_out_of_range [taxInv] 0 5
  obtain ⟨_, h4, _⟩ := claim_c9_delete_out_of_range [taxInv] 3 0
  exact ⟨h1 taxInv [taxItem] rfl rfl (by simp), h4 rfl⟩

/-- Claim C3 (confirmed): for every nonempty ledger the export is the exact
header row followed by the data rows; an invoice with `n ≥ 1` line items
contributes exactly `n` rows in item order, with the subtotal/tax/total
cells populated only on the first of them and empty on every later one; an
invoice with zero line items (absent or empty array) contributes exactly
one row with description `"No line items"`, empty quantity/unit-price/
line-total cells, and its subtotal/tax/total populated. -/
theorem claim_c3_export_shape (l : List Invoice) (hl : l ≠ []) :
    exportToCSV l =
      some ("Vendor,Invoice Number,Invoice Date,Due Date,PO Number,Description,Quantity,Unit Price,Line Total,Subtotal,Tax,Total"
        ++ "\n" ++
        String.join ((l.map invoiceRows).flatten.map (fun r => rowOfCells r ++ "\n"))) ∧
    (∀ inv items, inv.line_items = some items → items ≠ [] →
      (invoiceRows inv).length = items.length ∧
      (∀ k item, items[k]? = some item →
        (invoiceRows inv)[k]? = some
          ([quoteField (inv.vendor_name.getD ""),
            quoteField (inv.invoice_number.getD ""),
            quoteField (inv.invoice_date.getD ""),
            quoteField (inv.due_date.getD ""),
            quoteField (inv.purchase_order_number.getD ""),
            quoteField (item.description.getD ""),
            numStr (item.quantity.getD 0), numStr (item.unit_price.getD 0),
            numStr (item.line_total.getD 0)] ++
          (if k = 0 then
            [numStr (inv.subtotal.getD 0), numStr (inv.tax_amount.getD 0),
             numStr (inv.total_amount.getD 0)]
           else ["", "", ""])))) ∧
    (∀ inv, inv.line_items = none ∨ inv.line_items = some [] →
      invoiceRows inv =
        [[quoteField (inv.vendor_name.getD ""),
          quoteField (inv.invoice_number.getD ""),
          quoteField (inv.invoice_date.getD ""),
          quoteField (inv.due_date.getD ""),
          quoteField (inv.purchase_order_number.getD ""),
          quoteField "No line items", "", "", "",
          numStr (inv.subtotal.getD 0), numStr (inv.tax_amount.getD 0),
          numStr (inv.total_amount.getD 0)]]) := by
  refine ⟨?_, ?_, ?_⟩
  · have hne : l.isEmpty = false := by
      cases l with
      | nil => exact absurd rfl hl
      | cons a as => rfl
    simp [exportToCSV, hne, csvContent, csvHeader]
  · intro inv items hitems hne
    cases items with
    | nil => exact absurd rfl hne
    | cons a rest =>
      have hrows : invoiceRows inv = itemRowsFrom inv 0 (a :: rest) := by
        simp [invoiceRows, hitems]
      constructor
      · rw [hrows, itemRowsFrom_length]
      · intro k item hk
        rw [hrows, itemRowsFrom_getElem? inv (a :: rest) 0 k, hk]
        cases k with
        | zero => simp [itemRowCells]
        | succ k0 => simp [itemRowCells]
  · rintro inv (h | h) <;> simp [invoiceRows, h, noItemsRowCells]

/-- A two-item invoice used to instantiate the export-shape claim. -/
def c3itemA : LineItem :=
  { description := some "alpha", quantity := some 1, unit_price := some 0,
    line_total := some 0 }

/-- The second line item of the export-shape witness invoice. -/
def c3itemB : LineItem :=
  { description := some "beta", quantity := some 1, unit_price := some 0,
    line_total := some 0 }

/-- The export-shape witness invoice with two line items. -/
def c3inv : Invoice :=
  { vendor_name := some "Acme", subtotal := some 0, tax_amount := some 0,
    total_amount := some 0, line_items := some [c3itemA, c3itemB] }

/-- Claim C3 witness: a ledger of one invoice with two line items exports
with exactly two data rows, and the second row leaves the last three cells
empty. -/
theorem claim_c3_witness :
    (invoiceRows c3inv).length = 2 ∧
    (invoiceRows c3inv)[1]? = some
      ([quoteField (c3inv.vendor_name.getD ""),
        quoteField (c3inv.invoice_number.getD ""),
        quoteField (c3inv.invoice_date.getD ""),
        quoteField (c3inv.due_date.getD ""),
        quoteField (c3inv.purchase_order_number.getD ""),
        quoteField (c3itemB.description.getD ""),
        numStr (c3itemB.quantity.getD 0), numStr (c3itemB.unit_price.getD 0),
        numStr (c3itemB.line_total.getD 0)] ++ ["", "", ""]) := by
  obtain ⟨hlen, hrow⟩ :=
    (claim_c3_export_shape [c3inv] (by simp)).2.1 c3inv [c3itemA, c3itemB]
      rfl (by simp)
  refine ⟨hlen, ?_⟩
  have := hrow 1 c3itemB rfl
  simpa using this

/-- Claim C4 (corrected): normalization fails with `NoStructuredPayload`
exactly when the reply has no substring spanning an opening brace through a
later closing brace; otherwise the candidate (first opening brace through
last closing brace) is parsed, and normalization fails with
`MalformedPayload` exactly when that parse raises a syntax error.  When the
parse succeeds the sanitize pass still runs: normalization succeeds unless
sanitization itself throws (a `null` element in a `line_items` array), which
surfaces as the route's generic processing failure instead. -/
theorem claim_c4_normalizer_errors
    (parse : String → Option (List (String × JVal))) (s : String) :
    (normalize parse s = .error .noStructuredPayload ↔ ¬ HasBraceSpan s) ∧
    (∀ candidate, extractCandidate s = some candidate →
      ((normalize parse s = .error .malformedPayload ↔ parse candidate = none) ∧
       (∀ data, parse candidate = some data →
         normalize parse s =
           match sanitizeData data with
           | none => .error .processingFailure
           | some clean => .ok clean))) := by
  constructor
  · cases h : extractCandidate s with
    | none =>
      have hno := (extractCandidate_eq_none_iff s).mp h
      simp [normalize, h, hno]
    | some candidate =>
      have hyes : HasBraceSpan s :=
        (extractCandidate_isSome_iff s).mp (by simp [h])
      constructor
      · intro hn
        exfalso
        simp only [normalize, h] at hn
        cases hp : parse candidate with
        | none => simp only [hp] at hn; simp at hn
        | some data0 =>
          simp only [hp] at hn
          cases hs : sanitizeData data0 <;> simp only [hs] at hn <;> simp at hn
      · intro hnb
        exact absurd hyes hnb
  · intro candidate hc
    constructor
    · constructor
      · intro hm
        simp only [normalize, hc] at hm
        cases hp : parse candidate with
        | none => rfl
        | some data0 =>
          simp only [hp] at hm
          cases hs : sanitizeData data0 <;> simp only [hs] at hm <;> simp at hm
      · intro hp
        simp [normalize, hc, hp]
    · intro data hp
      simp only [normalize, hc, hp]

/-- The reply `'{"line_items":[null]}'` used against claim C4: it has a
brace span, and `JSON.parse` on its candidate succeeds with an object whose
`line_items` array holds a single `null`. -/
def nullItemReply : String := "\x7b\"line_items\":[null]\x7d"

/-- A snapshot of `JSON.parse` on the reply above: the candidate string maps
to the parsed object, anything else raises. -/
def parseNullItem : String → Option (List (String × JVal)) :=
  fun c => if c = nullItemReply then some [("line_items", .arr [.null])] else none

/-- Claim C4 counterexample: on the reply `'{"line_items":[null]}'` the
brace span exists and the parse succeeds, yet normalization does not
succeed — the sanitize pass reads `.description` of `null` and the route
answers with its generic processing failure, which is neither
`NoStructuredPayload` nor `MalformedPayload` nor a success. -/
theorem claim_c4_counterexample :
    extractCandidate nullItemReply = some nullItemReply ∧
    parseNullItem nullItemReply = some [("line_items", JVal.arr [JVal.null])] ∧
    normalize parseNullItem nullItemReply = .error .processingFailure := by
  refine ⟨by rfl, by rfl, by rfl⟩

/-- A parse snapshot that always raises, used to exercise the
`MalformedPayload` branch of claim C4. -/
def parseFail : String → Option (List (String × JVal)) := fun _ => none

/-- Claim C4 witness: on a reply with a brace span whose candidate fails to
parse, normalization reports `MalformedPayload`. -/
theorem claim_c4_witness :
    normalize parseFail "x\x7by\x7dz" = .error .malformedPayload :=
  ((claim_c4_normalizer_errors parseFail "x\x7by\x7dz").2 "\x7by\x7d" rfl).1.mpr rfl

/-- Claim C6 (confirmed): whenever the sanitize pass completes, every
top-level string-valued field has been tag-stripped and trimmed
(`cleanStr`), every non-string top-level field is unchanged, every
`line_items` element that is an object with a string `description` has that
description tag-stripped and trimmed, and in particular
`"<b>INV-1</b>"` becomes `"INV-1"`. -/
theorem claim_c6_sanitize_fields (fields clean : List (String × JVal))
    (h : sanitizeData fields = some clean) :
    (∀ k s, k ≠ "line_items" → getKey fields k = JVal.str s →
      getKey clean k = JVal.str (cleanStr s)) ∧
    (∀ k v, k ≠ "line_items" → getKey fields k = v →
      (∀ s, v ≠ JVal.str s) → getKey clean k = v) ∧
    (∀ (items : List JVal) (i : Nat) (gs : List (String × JVal)) (s : String),
      getKey fields "line_items" = JVal.arr items →
      items[i]? = some (JVal.obj gs) → getKey gs "description" = JVal.str s →
      ∃ items', getKey clean "line_items" = JVal.arr items' ∧
        items'[i]? =
          some (JVal.obj (setKey gs "description" (JVal.str (cleanStr s))))) ∧
    cleanStr "<b>INV-1</b>" = "INV-1" := by
  have htop : ∀ k, getKey (sanitizeTop fields) k = sanitize (getKey fields k) :=
    getKey_sanitizeTop fields
  unfold sanitizeData at h
  refine ⟨?_, ?_, ?_, by rfl⟩
  · intro k s hne hk
    have hclean : getKey clean k = getKey (sanitizeTop fields) k := by
      cases hl : getKey (sanitizeTop fields) "line_items" with
      | arr items =>
        simp only [hl] at h
        cases hmm : items.mapM sanitizeItem with
        | none => simp only [hmm] at h; simp at h
        | some items' =>
          simp only [hmm] at h
          simp at h
          rw [← h]
          exact getKey_setKey_ne _ _ _ _ hne
      | null => simp only [hl] at h; simp at h; rw [← h]
      | undefined => simp only [hl] at h; simp at h; rw [← h]
      | bool b => simp only [hl] at h; simp at h; rw [← h]
      | num x => simp only [hl] at h; simp at h; rw [← h]
      | str s0 => simp only [hl] at h; simp at h; rw [← h]
      | obj fs => simp only [hl] at h; simp at h; rw [← h]
    rw [hclean, htop, hk]
    rfl
  · intro k v hne hk hnotstr
    have hclean : getKey clean k = getKey (sanitizeTop fields) k := by
      cases hl : getKey (sanitizeTop fields) "line_items" with
      | arr items =>
        simp only [hl] at h
        cases hmm : items.mapM sanitizeItem with
        | none => simp only [hmm] at h; simp at h
        | some items' =>
          simp only [hmm] at h
          simp at h
          rw [← h]
          exact getKey_setKey_ne _ _ _ _ hne
      | null => simp only [hl] at h; simp at h; rw [← h]
      | undefined => simp only [hl] at h; simp at h; rw [← h]
      | bool b => simp only [hl] at h; simp at h; rw [← h]
      | num x => simp only [hl] at h; simp at h; rw [← h]
      | str s0 => simp only [hl] at h; simp at h; rw [← h]
      | obj fs => simp only [hl] at h; simp at h; rw [← h]
    rw [hclean, htop, hk]
    cases v with
    | str s => exact absurd rfl (hnotstr s)
    | null => rfl
    | undefined => rfl
    | bool b => rfl
    | num x => rfl
    | arr xs => rfl
    | obj fs => rfl
  · intro items i gs s hitems hi hdesc
    have hl : getKey (sanitizeTop fields) "line_items" = .arr items := by
      rw [htop, hitems]
      rfl
    simp only [hl] at h
    cases hmm : items.mapM sanitizeItem with
    | none => simp only [hmm] at h; simp at h
    | some items' =>
      simp only [hmm] at h
      simp at h
      refine ⟨items', ?_, ?_⟩
      · rw [← h]
        exact getKey_setKey_self _ _ _
      · obtain ⟨b, hb1, hb2⟩ := mapM_option_getElem? sanitizeItem hmm hi
        have : b = .obj (setKey gs "description" (.str (cleanStr s))) := by
          simp only [sanitizeItem, hdesc] at hb1
          rw [Option.some_inj] at hb1
          rw [← hb1]
          rfl
        rw [← this]
        exact hb2

/-- The payload of the spec's sanitizer example: an `invoice_number` holding
a markup tag. -/
def acmeFields : List (String × JVal) :=
  [("vendor_name", .str "Acme"), ("invoice_number", .str "<b>INV-1</b>")]

/-- Claim C6 witness: sanitizing the spec's example payload turns
`invoice_number` from `"<b>INV-1</b>"` into `"INV-1"`. -/
theorem claim_c6_witness :
    sanitizeData acmeFields = some (sanitizeTop acmeFields) ∧
    getKey (sanitizeTop acmeFields) "invoice_number" = JVal.str "INV-1" := by
  have hs : sanitizeData acmeFields = some (sanitizeTop acmeFields) := rfl
  have h2 := (claim_c6_sanitize_fields acmeFields (sanitizeTop acmeFields) hs).1
    "invoice_number" "<b>INV-1</b>" (by decide) rfl
  refine ⟨hs, ?_⟩
  rw [h2]
  rfl

/-- Claim C8 (corrected): wherever the export or the editing display
produces a concrete number for an absent numeric field, the default is `0`
for every field — including `quantity`, whose spec-claimed default of `1`
exists only in the extraction prompt's instruction to the model.  The
sanitize pass itself leaves numeric and null values unchanged, so
normalization preserves absent numeric fields. -/
theorem claim_c8_numeric_defaults (inv : Invoice) (item : LineItem)
    (first : Bool) :
    (item.quantity = none →
      (itemRowCells inv item first)[6]? = some (numStr 0) ∧
      displayQuantity item = 0) ∧
    (item.unit_price = none →
      (itemRowCells inv item first)[7]? = some (numStr 0)) ∧
    (item.line_total = none →
      (itemRowCells inv item first)[8]? = some (numStr 0)) ∧
    (inv.subtotal = none → inv.line_items = none ∨ inv.line_items = some [] →
      (invoiceRows inv).head?.bind (fun r => r[9]?) = some (numStr 0)) ∧
    (∀ x, sanitize (JVal.num x) = JVal.num x) ∧
    sanitize JVal.null = JVal.null := by
  refine ⟨?_, ?_, ?_, ?_, ?_, ?_⟩
  · intro hq
    exact ⟨by simp [itemRowCells, hq], by simp [displayQuantity, hq]⟩
  · intro hu
    simp [itemRowCells, hu]
  · intro hl
    simp [itemRowCells, hl]
  · rintro hsub (h | h) <;> simp [invoiceRows, h, noItemsRowCells, hsub]
  · intro x
    rfl
  · rfl

/-- The counterexample line item for claim C8: its `quantity` is absent. -/
def noQtyItem : LineItem :=
  { description := some "x", quantity := none, unit_price := some 0,
    line_total := some 0 }

/-- The counterexample invoice for claim C8. -/
def noQtyInv : Invoice := { line_items := some [noQtyItem] }

/-- Claim C8 counterexample: exporting a line item whose `quantity` is
absent renders `0` in the quantity cell, not the claimed default `1`. -/
theorem claim_c8_counterexample :
    ((invoiceRows noQtyInv).head?.bind (fun r => r[6]?)) = some (numStr 0) ∧
    numStr 0 ≠ numStr 1 := by
  exact ⟨rfl, by decide⟩

/-- Claim C8 witness: the amended default applied to the concrete absent
quantity. -/
theorem claim_c8_witness :
    (itemRowCells noQtyInv noQtyItem true)[6]? = some (numStr 0) ∧
    displayQuantity noQtyItem = 0 :=
  (claim_c8_numeric_defaults noQtyInv noQtyItem true).1 rfl

/-- Claim C10 (corrected): the exporter wraps each text field in double
quotes and emits its content verbatim — a double quote, comma or newline in
the value appears unescaped between the wrapping quotes.  A field value
containing a double quote therefore differs from its standard (RFC 4180)
quoting; values whose only special characters are commas or newlines,
however, coincide with standard quoting, since RFC 4180 escapes nothing but
double quotes inside a quoted field. -/
theorem claim_c10_verbatim_quoting (s : String) :
    quoteField s = "\"" ++ s ++ "\"" ∧
    ('"' ∈ s.data → quoteField s ≠ rfc4180Quote s) ∧
    ('"' ∉ s.data → quoteField s = rfc4180Quote s) ∧
    (∀ inv item first,
      (itemRowCells inv item first)[5]? =
        some (quoteField (item.description.getD ""))) := by
    refine ⟨rfl, ?_, ?_, ?_⟩
    · intro hmem heq
      have hlen := congrArg String.length heq
      have hq1 : ("\"" : String).length = 1 := rfl
      have hmk : (String.mk (escapeQuotes s.data)).length =
          (escapeQuotes s.data).length := rfl
      have hsl : s.length = s.data.length := rfl
      have h1 : (quoteField s).length = s.data.length + 2 := by
        simp only [quoteField, String.length_append, hq1, hsl]
        omega
      have h2 : (rfc4180Quote s).length =
          s.data.length + s.data.count '"' + 2 := by
        simp only [rfc4180Quote, String.length_append, hq1, hmk,
          length_escapeQuotes]
        omega
      rw [h1, h2] at hlen
      have hpos : 0 < s.data.count '"' := List.count_pos_iff.mpr hmem
      omega
    · intro hnmem
      unfold quoteField rfc4180Quote
      rw [escapeQuotes_of_not_mem hnmem]
    · intro inv item first
      simp [itemRowCells]

/-- Claim C10 counterexample: the value `"a,b"` contains a comma, yet the
field the exporter emits for it is exactly its standard RFC 4180 quoting —
so the claim that any comma-containing value yields a non-conforming field
is false. -/
theorem claim_c10_counterexample :
    (',' ∈ "a,b".data) ∧ quoteField "a,b" = rfc4180Quote "a,b" := by
  exact ⟨by decide, by decide⟩

/-- Claim C10 witness: a value containing a double quote is emitted
verbatim and differs from its standard quoting. -/
theorem claim_c10_witness :
    quoteField "a\"b" ≠ rfc4180Quote "a\"b" :=
  (claim_c10_verbatim_quoting "a\"b").2.1 (by decide)

end InvoiceExtractor
